import Mathlib

/-!
Shallow embedding of `seqtools/indexing.py`: lazy view objects over an
indexable mutable sequence (Reindexing, Cycle, InfiniteCycle, Repetition,
InfiniteRepetition) and the factories `take`, `cycle`, `repeat`.

Base sequences are modelled as `List Int`; Python exceptions are modelled
by `PyErr`; mutation is modelled by state passing (operations return the
new base/stored value).  Python `%` and `//` on integers are floor
operations, so they are embedded as `Int.fmod` and `Int.fdiv`.
-/

namespace Seqtools

/-- Python exception values raised by the embedded operations. -/
inductive PyErr where
  | indexError (msg : String)
  | valueError (msg : String)
  | typeError (msg : String)
  | zeroDivisionError (msg : String)
  deriving DecidableEq, Repr

/-- Python slice object: each of start, stop, step may be absent (None). -/
structure PySlice where
  start : Option Int
  stop : Option Int
  step : Option Int
  deriving DecidableEq, Repr

/-- Python list element read `xs[i]`: negative indices count from the end,
out-of-range indices raise IndexError. -/
def pyGet (xs : List Int) (i : Int) : Except PyErr Int :=
  let j : Int := if i < 0 then (xs.length : Int) + i else i
  if 0 ≤ j ∧ j < (xs.length : Int) then .ok (xs.getD j.toNat 0)
  else .error (.indexError "list index out of range")

/-- Python list element write `xs[i] = v`, returning the updated list. -/
def pySet (xs : List Int) (i : Int) (v : Int) : Except PyErr (List Int) :=
  let j : Int := if i < 0 then (xs.length : Int) + i else i
  if 0 ≤ j ∧ j < (xs.length : Int) then .ok (xs.set j.toNat v)
  else .error (.indexError "list assignment index out of range")

/-- Evaluate a Python comprehension left to right, stopping at the first
exception. -/
def mapExcept (f : Int → Except PyErr Int) : List Int → Except PyErr (List Int)
  | [] => .ok []
  | x :: xs =>
    match f x with
    | .error e => .error e
    | .ok y =>
      match mapExcept f xs with
      | .error e => .error e
      | .ok ys => .ok (y :: ys)

/-- Positions selected by a Python slice over a sequence of length `L`,
following CPython slice normalization (`slice.indices`). -/
def sliceIndices (key : PySlice) (L : Nat) : Except PyErr (List Int) :=
  let step := key.step.getD 1
  if step = 0 then .error (.valueError "slice step cannot be zero")
  else if 0 < step then
    let start : Int := match key.start with
      | none => 0
      | some s => if s < 0 then max ((L : Int) + s) 0 else min s (L : Int)
    let stop : Int := match key.stop with
      | none => (L : Int)
      | some s => if s < 0 then max ((L : Int) + s) 0 else min s (L : Int)
    let count : Int := if stop ≤ start then 0 else (stop - start + step - 1).fdiv step
    .ok ((List.range count.toNat).map fun (i : Nat) => start + (i : Int) * step)
  else
    let start : Int := match key.start with
      | none => (L : Int) - 1
      | some s => if s < 0 then max ((L : Int) + s) (-1) else min s ((L : Int) - 1)
    let stop : Int := match key.stop with
      | none => -1
      | some s => if s < 0 then max ((L : Int) + s) (-1) else min s ((L : Int) - 1)
    let count : Int := if start ≤ stop then 0 else (start - stop - step - 1).fdiv (-step)
    .ok ((List.range count.toNat).map fun (i : Nat) => start + (i : Int) * step)

/-- Python list slicing `xs[key]`. -/
def pyGetSlice (xs : List Int) (key : PySlice) : Except PyErr (List Int) :=
  match sliceIndices key xs.length with
  | .error e => .error e
  | .ok idxs => mapExcept (pyGet xs) idxs

/-- A base object passed to `Reindexing.__init__`: either a plain list or
another Reindexing view (stored as base plus index list). -/
inductive PySeq where
  | list (xs : List Int)
  | reindexing (sequence : PySeq) (indexes : List Int)
  deriving DecidableEq, Repr

/-- Reindexing.__init__: when the wrapped sequence is itself a Reindexing,
the index lists are composed (`sequence.indexes[i] for i in indexes`) and the
stored base becomes the inner base. -/
def Reindexing.init (sequence : PySeq) (indexes : List Int) : Except PyErr PySeq :=
  match sequence with
  | .reindexing inner innerIndexes =>
    match mapExcept (pyGet innerIndexes) indexes with
    | .error e => .error e
    | .ok composed => .ok (.reindexing inner composed)
  | .list xs => .ok (.reindexing (.list xs) indexes)

/-- take: return a view on the sequence reordered by indexes. -/
def take (sequence : PySeq) (indexes : List Int) : Except PyErr PySeq :=
  Reindexing.init sequence indexes

/-- Reindexing.__getitem__ with an integer key, for a view whose base is a
plain list: bounds check against the index count, negative-index resolution,
then `sequence[indexes[key]]`. -/
def Reindexing.getInt (sequence indexes : List Int) (key : Int) : Except PyErr Int :=
  if key < -(indexes.length : Int) ∨ (indexes.length : Int) ≤ key then
    .error (.indexError "Reindexing index out of range")
  else
    let key := if key < 0 then (indexes.length : Int) + key else key
    match pyGet indexes key with
    | .error e => .error e
    | .ok i => pyGet sequence i

/-- Reindexing.__setitem__ with an integer key: writes through to the base,
returning the updated base list. -/
def Reindexing.setInt (sequence indexes : List Int) (key : Int) (value : Int) :
    Except PyErr (List Int) :=
  if key < -(indexes.length : Int) ∨ (indexes.length : Int) ≤ key then
    .error (.indexError "Reindexing index out of range")
  else
    let key := if key < 0 then (indexes.length : Int) + key else key
    match pyGet indexes key with
    | .error e => .error e
    | .ok i => pySet sequence i value

/-- The write loop of Reindexing.__setitem__ for slices: writes each pair in
order; on an exception the writes made so far persist (the returned list is
the base state at the moment the exception is raised). -/
def writeLoop (sequence : List Int) : List (Int × Int) → List Int × Option PyErr
  | [] => (sequence, none)
  | (i, v) :: rest =>
    match pySet sequence i v with
    | .error e => (sequence, some e)
    | .ok s => writeLoop s rest

/-- Reindexing.__setitem__ with a slice key: selects `indexes[key]`, checks
one-to-one shape before any write, then zip-assigns through to the base.
Returns the final base state and the exception, if any. -/
def Reindexing.setSlice (sequence indexes : List Int) (key : PySlice)
    (value : List Int) : List Int × Option PyErr :=
  match pyGetSlice indexes key with
  | .error e => (sequence, some e)
  | .ok idxs =>
    if idxs.length ≠ value.length then
      (sequence, some (.valueError "Reindexing only support one-to-one assignment"))
    else
      writeLoop sequence (idxs.zip value)

/-- Modelled from the spec: the decorator `basic_getitem` comes from the
module `seqtools.common`, which is not part of the sources; per the spec's
shared bounds-check convention an integer key below `-length` or at or above
`length` fails with OutOfRange, a negative key resolves to `length + key`,
and the wrapped body (from the source, `Cycle.__getitem__`) then returns
`sequence[key % len(sequence)]`, where Python raises ZeroDivisionError on an
empty base. -/
def Cycle.getInt (sequence : List Int) (size : Int) (key : Int) : Except PyErr Int :=
  if key < -size ∨ size ≤ key then
    .error (.indexError "Cycle index out of range")
  else
    let key := if key < 0 then size + key else key
    if (sequence.length : Int) = 0 then
      .error (.zeroDivisionError "integer modulo by zero")
    else
      pyGet sequence (key.fmod (sequence.length : Int))

/-- Modelled from the spec: slice access through `basic_getitem` (missing
module `seqtools.common`) behaves like slicing a normal sequence of length
`size`, selecting the elements at the standard slice positions; each element
is produced by the integer-key path of `Cycle.__getitem__`. -/
def Cycle.getSlice (sequence : List Int) (size : Int) (key : PySlice) :
    Except PyErr (List Int) :=
  match sliceIndices key size.toNat with
  | .error e => .error e
  | .ok idxs => mapExcept (Cycle.getInt sequence size) idxs

/-- InfiniteCycle.__getitem__ with an integer key: negative keys fail, else
`sequence[key % len(sequence)]`. -/
def InfiniteCycle.getInt (sequence : List Int) (key : Int) : Except PyErr Int :=
  if key < 0 then
    .error (.indexError "Cannot use indices relative to length on InfiniteCycle")
  else if (sequence.length : Int) = 0 then
    .error (.zeroDivisionError "integer modulo by zero")
  else
    pyGet sequence (key.fmod (sequence.length : Int))

/-- InfiniteCycle.__getitem__ with a slice key: start defaults to 0; start,
stop must be present and non-negative; both bounds are shifted down by
`offset = start - start % len(sequence)` and the slice is delegated to a
`Cycle` of size equal to the shifted stop. -/
def InfiniteCycle.getSlice (sequence : List Int) (key : PySlice) :
    Except PyErr (List Int) :=
  let start := key.start.getD 0
  if start < 0 then
    .error (.indexError "Cannot use indices relative to length on InfiniteCycle")
  else
    match key.stop with
    | none =>
      .error (.indexError "Cannot use indices relative to length on InfiniteCycle")
    | some stop =>
      if stop < 0 then
        .error (.indexError "Cannot use indices relative to length on InfiniteCycle")
      else if (sequence.length : Int) = 0 then
        .error (.zeroDivisionError "integer modulo by zero")
      else
        let offset := start - start.fmod (sequence.length : Int)
        Cycle.getSlice sequence (stop - offset)
          ⟨some (start - offset), some (stop - offset), key.step⟩

/-- Result of the `cycle` factory: a bounded `Cycle` (which stores
`int(size)`) or an `InfiniteCycle`. -/
inductive CycleView where
  | bounded (sequence : List Int) (size : Int)
  | unbounded (sequence : List Int)
  deriving DecidableEq, Repr

/-- cycle: return a view of the repeated sequence with an optional size
limit.  `Cycle.__init__` stores `int(size)` without any validation, so any
integer limit, negative included, is accepted as given. -/
def cycle (sequence : List Int) (limit : Option Int) : CycleView :=
  match limit with
  | none => .unbounded sequence
  | some n => .bounded sequence n

/-- Integer-key read on either kind of cycle view. -/
def CycleView.getInt : CycleView → Int → Except PyErr Int
  | .bounded s n, k => Cycle.getInt s n k
  | .unbounded s, k => InfiniteCycle.getInt s k

/-- Result of the `repeat` factory: a bounded `Repetition` of the stored
value or an `InfiniteRepetition`. -/
inductive RepeatView where
  | bounded (value : Int) (times : Int)
  | unbounded (value : Int)
  deriving DecidableEq, Repr

/-- The `times` argument passed to `repeat`: None, an integer, or any other
object (for which `isint` is false). -/
inductive TimesArg where
  | none
  | int (n : Int)
  | other
  deriving DecidableEq, Repr

/-- repeat: return a view of the repeated value with an optional size limit.
The source tests `isint(times) and times > 1`, then `times is None`, and
raises TypeError otherwise. -/
def repeat' (value : Int) (times : TimesArg) : Except PyErr RepeatView :=
  match times with
  | .int n =>
    if 1 < n then .ok (.bounded value n)
    else .error (.typeError "times must be a positive integer or None")
  | .none => .ok (.unbounded value)
  | .other => .error (.typeError "times must be a positive integer or None")

/-- Result of slicing an `InfiniteRepetition`: the literal empty list or a
view built by `repeat`. -/
inductive RepSliceResult where
  | emptyList
  | view (v : RepeatView)
  deriving DecidableEq, Repr

/-- InfiniteRepetition.__getitem__ with a slice key: start defaults to 0 and
step to 1; start and stop must be present and non-negative; a zero step
raises ValueError; an empty progression returns `[]`; otherwise stop is
adjusted by the source's remainder formula and the result is
`repeat(value, (stop - start) // step)`. -/
def InfiniteRepetition.getSlice (value : Int) (key : PySlice) :
    Except PyErr RepSliceResult :=
  let start := key.start.getD 0
  let step := key.step.getD 1
  if start < 0 then
    .error (.indexError "Cannot use indices relative to length on InfiniteRepetition")
  else
    match key.stop with
    | none =>
      .error (.indexError "Cannot use indices relative to length on InfiniteRepetition")
    | some stop =>
      if stop < 0 then
        .error (.indexError "Cannot use indices relative to length on InfiniteRepetition")
      else if step = 0 then
        .error (.valueError "slice step cannot be 0")
      else if (stop - start) * step ≤ 0 then
        .ok .emptyList
      else
        let stop' := if 0 < step then stop + (step + stop - start).fmod step
                     else stop - (-step + start - stop).fmod (-step)
        match repeat' value (.int ((stop' - start).fdiv step)) with
        | .error e => .error e
        | .ok v => .ok (.view v)

/-- InfiniteRepetition.__setitem__ with a slice key, returning the new
stored value.  The source does not default an absent start (unlike the
getter), so `start < 0` compares None with an integer and raises TypeError;
a present start must be non-negative, stop present and non-negative, step
non-zero; a non-empty progression stores `value[-1]`, an empty progression
leaves the stored value unchanged. -/
def InfiniteRepetition.setSlice (value : Int) (key : PySlice) (rhs : List Int) :
    Except PyErr Int :=
  let step := key.step.getD 1
  match key.start with
  | none => .error (.typeError "comparison not supported between NoneType and int")
  | some start =>
    if start < 0 then
      .error (.indexError "Cannot use indices relative to length on InfiniteRepetition")
    else
      match key.stop with
      | none =>
        .error (.indexError "Cannot use indices relative to length on InfiniteRepetition")
      | some stop =>
        if stop < 0 then
          .error (.indexError "Cannot use indices relative to length on InfiniteRepetition")
        else if step = 0 then
          .error (.valueError "slice step cannot be 0")
        else if 0 < (stop - start) * step then
          match pyGet rhs (-1) with
          | .error e => .error e
          | .ok last => .ok last
        else
          .ok value

/-- Reading a Python list at a valid non-negative index succeeds and yields
the element at that position. -/
theorem pyGet_ok (xs : List Int) (i : Int) (h0 : 0 ≤ i) (h : i < (xs.length : Int)) :
    pyGet xs i = .ok (xs.getD i.toNat 0) := by
  simp only [pyGet]
  rw [if_neg (by omega : ¬ i < 0), if_pos ⟨h0, h⟩]

/-- A value returned by a Python list read is an element of the list. -/
theorem pyGet_mem {xs : List Int} {i v : Int} (h : pyGet xs i = .ok v) : v ∈ xs := by
  simp only [pyGet] at h
  by_cases hc : 0 ≤ (if i < 0 then (xs.length : Int) + i else i) ∧
      (if i < 0 then (xs.length : Int) + i else i) < (xs.length : Int)
  · rw [if_pos hc] at h
    obtain ⟨h0, h1⟩ := hc
    have hlt : (if i < 0 then (xs.length : Int) + i else i).toNat < xs.length := by omega
    have : v = xs.getD (if i < 0 then (xs.length : Int) + i else i).toNat 0 :=
      (Except.ok.injEq _ _).mp h.symm
    rw [this, List.getD_eq_getElem?_getD, List.getElem?_eq_getElem hlt]
    exact List.getElem_mem hlt
  · rw [if_neg hc] at h
    exact absurd h (by simp)

/-- Writing a Python list at a valid non-negative index succeeds and yields
the updated list. -/
theorem pySet_ok (xs : List Int) (i v : Int) (h0 : 0 ≤ i) (h : i < (xs.length : Int)) :
    pySet xs i v = .ok (xs.set i.toNat v) := by
  simp only [pySet]
  rw [if_neg (by omega : ¬ i < 0), if_pos ⟨h0, h⟩]

/-- A comprehension whose body always succeeds evaluates to the mapped list. -/
theorem mapExcept_ok_of {f : Int → Except PyErr Int} {g : Int → Int} :
    ∀ {xs : List Int}, (∀ x ∈ xs, f x = .ok (g x)) → mapExcept f xs = .ok (xs.map g) := by
  intro xs
  induction xs with
  | nil => intro _; rfl
  | cons x xs ih =>
    intro h
    simp only [mapExcept, h x (List.mem_cons_self x xs),
      ih (fun y hy => h y (List.mem_cons_of_mem _ hy)), List.map_cons]

/-- Every element produced by a successful comprehension comes from applying
the body to some input element. -/
theorem mapExcept_mem {f : Int → Except PyErr Int} :
    ∀ {xs ys : List Int}, mapExcept f xs = .ok ys → ∀ y ∈ ys, ∃ x ∈ xs, f x = .ok y := by
  intro xs
  induction xs with
  | nil =>
    intro ys h y hy
    simp only [mapExcept] at h
    obtain rfl : ([] : List Int) = ys := (Except.ok.injEq _ _).mp h
    simp at hy
  | cons x xs ih =>
    intro ys h y hy
    simp only [mapExcept] at h
    cases hfx : f x with
    | error e => rw [hfx] at h; exact absurd h (by simp)
    | ok z =>
      rw [hfx] at h
      cases hm : mapExcept f xs with
      | error e => rw [hm] at h; exact absurd h (by simp)
      | ok zs =>
        rw [hm] at h
        obtain rfl : z :: zs = ys := (Except.ok.injEq _ _).mp h
        rcases List.mem_cons.mp hy with h1 | h2
        · exact ⟨x, List.mem_cons_self x xs, h1 ▸ hfx⟩
        · obtain ⟨w, hw, hfw⟩ := ih hm y h2
          exact ⟨w, List.mem_cons_of_mem _ hw, hfw⟩

/-- When every planned write hits a valid position, the write loop raises no
exception and equals the in-order fold of the single-position updates. -/
theorem writeLoop_ok :
    ∀ (pairs : List (Int × Int)) (S : List Int),
      (∀ q ∈ pairs, 0 ≤ q.1 ∧ q.1 < (S.length : Int)) →
      writeLoop S pairs = (pairs.foldl (fun acc q => acc.set q.1.toNat q.2) S, none) := by
  intro pairs
  induction pairs with
  | nil => intro S _; rfl
  | cons q rest ih =>
    intro S h
    obtain ⟨i, v⟩ := q
    obtain ⟨h0, h1⟩ := h (i, v) (List.mem_cons_self _ _)
    simp only [writeLoop, pySet_ok S i v h0 h1, List.foldl_cons]
    exact ih _ (fun p hp => by
      have := h p (List.mem_cons_of_mem _ hp)
      simpa [List.length_set] using this)

/-- Positions never written by the fold keep their original content. -/
theorem foldl_set_untouched :
    ∀ (pairs : List (Int × Int)) (S : List Int) (t : Nat),
      (∀ q ∈ pairs, q.1.toNat ≠ t) →
      (pairs.foldl (fun acc q => acc.set q.1.toNat q.2) S)[t]? = S[t]? := by
  intro pairs
  induction pairs with
  | nil => intro S t _; rfl
  | cons q rest ih =>
    intro S t h
    simp only [List.foldl_cons]
    rw [ih _ _ (fun p hp => h p (List.mem_cons_of_mem _ hp))]
    exact List.getElem?_set_ne (h q (List.mem_cons_self _ _))

/-- After the in-order fold of writes, a position holds the value of its last
planned write. -/
theorem foldl_set_last :
    ∀ (pairs : List (Int × Int)) (S : List Int) (j : Nat) (p v : Int),
      (∀ q ∈ pairs, 0 ≤ q.1) →
      pairs[j]? = some (p, v) →
      (∀ j' q, j < j' → pairs[j']? = some q → q.1 ≠ p) →
      p.toNat < S.length →
      (pairs.foldl (fun acc q => acc.set q.1.toNat q.2) S)[p.toNat]? = some v := by
  intro pairs
  induction pairs with
  | nil => intro S j p v _ hj _ _; simp at hj
  | cons q rest ih =>
    intro S j p v hpos hj hlast hlt
    have hp0 : 0 ≤ p := by
      have hmem : (p, v) ∈ q :: rest := List.mem_iff_getElem?.mpr ⟨j, hj⟩
      exact hpos (p, v) hmem
    cases j with
    | zero =>
      simp only [List.getElem?_cons_zero] at hj
      obtain rfl : q = (p, v) := (Option.some.injEq _ _).mp hj
      simp only [List.foldl_cons]
      rw [foldl_set_untouched rest _ p.toNat ?_]
      · exact List.getElem?_set_self (by simpa using hlt)
      · intro r hr
        obtain ⟨j', hj'⟩ := List.mem_iff_getElem?.mp hr
        have hr1 : r.1 ≠ p :=
          hlast (j' + 1) r (Nat.succ_pos _) (by simpa using hj')
        have hr0 : 0 ≤ r.1 := hpos r (List.mem_cons_of_mem _ (List.mem_iff_getElem?.mpr ⟨j', hj'⟩))
        omega
    | succ j =>
      simp only [List.getElem?_cons_succ] at hj
      simp only [List.foldl_cons]
      exact ih _ j p v
        (fun r hr => hpos r (List.mem_cons_of_mem _ hr))
        hj
        (fun j' r hjj hr => hlast (j' + 1) r (by omega) (by simpa using hr))
        (by simpa [List.length_set] using hlt)

/-- Integer read through a Reindexing view with in-range indexes succeeds and
resolves through the index list. -/
theorem Reindexing.getInt_ok (S idx : List Int) (k : Nat)
    (hidx : ∀ i ∈ idx, 0 ≤ i ∧ i < (S.length : Int))
    (hk : k < idx.length) :
    Reindexing.getInt S idx (k : Int) = .ok (S.getD (idx.getD k 0).toNat 0) := by
  have hk' : ((k : Int)) < (idx.length : Int) := by exact_mod_cast hk
  have hidx_k : pyGet idx (k : Int) = .ok (idx.getD k 0) := by
    rw [pyGet_ok idx (k : Int) (Int.natCast_nonneg k) hk']
    simp
  have hmem : idx.getD k 0 ∈ idx := by
    rw [List.getD_eq_getElem?_getD, List.getElem?_eq_getElem hk]
    exact List.getElem_mem hk
  obtain ⟨he0, he1⟩ := hidx _ hmem
  simp only [Reindexing.getInt]
  rw [if_neg (by omega), if_neg (by omega : ¬ ((k : Int) < 0)), hidx_k]
  exact pyGet_ok S _ he0 he1

/-- Integer write through a Reindexing view with in-range indexes succeeds
and updates the base at the mapped position. -/
theorem Reindexing.setInt_ok (S idx : List Int) (k : Nat) (v : Int)
    (hidx : ∀ i ∈ idx, 0 ≤ i ∧ i < (S.length : Int))
    (hk : k < idx.length) :
    Reindexing.setInt S idx (k : Int) v = .ok (S.set (idx.getD k 0).toNat v) := by
  have hk' : ((k : Int)) < (idx.length : Int) := by exact_mod_cast hk
  have hidx_k : pyGet idx (k : Int) = .ok (idx.getD k 0) := by
    rw [pyGet_ok idx (k : Int) (Int.natCast_nonneg k) hk']
    simp
  have hmem : idx.getD k 0 ∈ idx := by
    rw [List.getD_eq_getElem?_getD, List.getElem?_eq_getElem hk]
    exact List.getElem_mem hk
  obtain ⟨he0, he1⟩ := hidx _ hmem
  simp only [Reindexing.setInt]
  rw [if_neg (by omega), if_neg (by omega : ¬ ((k : Int) < 0)), hidx_k]
  exact pySet_ok S _ v he0 he1

/-- Claim C1: for every base sequence S, every index list I whose entries lie
in [0, len S), and every k with 0 ≤ k < len I, `take(S, I)[k]` returns
`S[I[k]]`, and the assignment `take(S, I)[k] = v` stores v at position I[k]
of the base S itself. -/
theorem C1_take_get_set_through_base (S I : List Int) (k : Nat) (v : Int)
    (hI : ∀ i ∈ I, 0 ≤ i ∧ i < (S.length : Int))
    (hk : k < I.length) :
    Reindexing.getInt S I (k : Int) = .ok (S.getD (I.getD k 0).toNat 0) ∧
    Reindexing.setInt S I (k : Int) v = .ok (S.set (I.getD k 0).toNat v) :=
  ⟨Reindexing.getInt_ok S I k hI hk, Reindexing.setInt_ok S I k v hI hk⟩

/-- Witness for C1 at S = [10,20,30,40], I = [3,0,1], k = 1, v = 99. -/
theorem C1_take_get_set_through_base_witness :
    Reindexing.getInt [10,20,30,40] [3,0,1] ((1 : Nat) : Int)
        = .ok (([10,20,30,40] : List Int).getD (([3,0,1] : List Int).getD 1 0).toNat 0) ∧
    Reindexing.setInt [10,20,30,40] [3,0,1] ((1 : Nat) : Int) 99
        = .ok (([10,20,30,40] : List Int).set (([3,0,1] : List Int).getD 1 0).toNat 99) :=
  C1_take_get_set_through_base [10,20,30,40] [3,0,1] 1 99 (by decide) (by decide)

/-- Claim C2: nested construction flattens: `take(take(S, I), J)` produces a
view whose stored base is S directly, with the composed index list
`[I[j] for j in J]`, and reading position k through it yields `S[I[J[k]]]`. -/
theorem C2_take_compose_flatten (S I J : List Int) (k : Nat)
    (hI : ∀ i ∈ I, 0 ≤ i ∧ i < (S.length : Int))
    (hJ : ∀ j ∈ J, 0 ≤ j ∧ j < (I.length : Int))
    (hk : k < J.length) :
    take (.list S) I = .ok (.reindexing (.list S) I) ∧
    take (.reindexing (.list S) I) J
      = .ok (.reindexing (.list S) (J.map (fun j => I.getD j.toNat 0))) ∧
    Reindexing.getInt S (J.map (fun j => I.getD j.toNat 0)) (k : Int)
      = .ok (S.getD (I.getD (J.getD k 0).toNat 0).toNat 0) := by
  have hcomp : mapExcept (pyGet I) J = .ok (J.map (fun j => I.getD j.toNat 0)) := by
    apply mapExcept_ok_of
    intro j hj
    obtain ⟨hj0, hj1⟩ := hJ j hj
    exact pyGet_ok I j hj0 hj1
  refine ⟨rfl, ?_, ?_⟩
  · simp only [take, Reindexing.init, hcomp]
  · have hmemJ : J.getD k 0 ∈ J := by
      rw [List.getD_eq_getElem?_getD, List.getElem?_eq_getElem hk]
      exact List.getElem_mem hk
    obtain ⟨hj0, hj1⟩ := hJ _ hmemJ
    have hgetD : (J.map (fun j => I.getD j.toNat 0)).getD k 0
        = I.getD (J.getD k 0).toNat 0 := by
      simp [List.getD_eq_getElem?_getD, List.getElem?_map, List.getElem?_eq_getElem hk]
    have hmemI : ∀ i ∈ J.map (fun j => I.getD j.toNat 0), 0 ≤ i ∧ i < (S.length : Int) := by
      intro i hi
      obtain ⟨j, hjJ, rfl⟩ := List.mem_map.mp hi
      obtain ⟨hj0', hj1'⟩ := hJ j hjJ
      have : j.toNat < I.length := by omega
      apply hI
      rw [List.getD_eq_getElem?_getD, List.getElem?_eq_getElem this]
      exact List.getElem_mem this
    have hk2 : k < (J.map (fun j => I.getD j.toNat 0)).length := by
      simpa using hk
    rw [Reindexing.getInt_ok S _ k hmemI hk2, hgetD]

/-- Witness for C2 at S = [10,20,30], I = [2,0,1], J = [1,2], k = 0. -/
theorem C2_take_compose_flatten_witness :
    take (.list [10,20,30]) [2,0,1] = .ok (.reindexing (.list [10,20,30]) [2,0,1]) ∧
    take (.reindexing (.list [10,20,30]) [2,0,1]) [1,2]
      = .ok (.reindexing (.list [10,20,30])
          (([1,2] : List Int).map (fun j => ([2,0,1] : List Int).getD j.toNat 0))) ∧
    Reindexing.getInt [10,20,30]
        (([1,2] : List Int).map (fun j => ([2,0,1] : List Int).getD j.toNat 0)) ((0 : Nat) : Int)
      = .ok (([10,20,30] : List Int).getD
          (([2,0,1] : List Int).getD (([1,2] : List Int).getD 0 0).toNat 0).toNat 0) :=
  C2_take_compose_flatten [10,20,30] [2,0,1] [1,2] 0 (by decide) (by decide) (by decide)

/-- Claim C3 is violated by the code: `repeat(5, None)[0:1]` does not yield
one copy of 5 but raises TypeError (the computed count 1 is handed to
`repeat`, which rejects `times == 1`); `repeat(5, None)[0:7:3]` yields 2
copies where the standard slice length is 3 (the stop-adjustment formula adds
`(stop - start) % step` instead of rounding up); the claim's own example
`repeat(5, None)[2:9:2]` does give 4 copies. -/
theorem C3_repeat_slice_count_bug :
    InfiniteRepetition.getSlice 5 ⟨some 0, some 1, none⟩
      = .error (.typeError "times must be a positive integer or None") ∧
    InfiniteRepetition.getSlice 5 ⟨some 0, some 7, some 3⟩
      = .ok (.view (.bounded 5 2)) ∧
    InfiniteRepetition.getSlice 5 ⟨some 2, some 9, some 2⟩
      = .ok (.view (.bounded 5 4)) :=
  ⟨rfl, rfl, rfl⟩

/-- Claim C4 is violated by the code: the slice setter of the unbounded
repetition does not default an absent start to 0 (unlike the getter), so
`repeat(7)[:3] = [1,2,3]` raises TypeError from comparing None with an
integer instead of storing 3; with an explicit start the documented
behaviour holds: `repeat(7)[0:5] = [1,2,3,4,5]` stores 5 and the empty slice
`repeat(7)[5:5] = [9]` is a no-op. -/
theorem C4_repeat_setslice_start_bug :
    InfiniteRepetition.setSlice 7 ⟨none, some 3, none⟩ [1,2,3]
      = .error (.typeError "comparison not supported between NoneType and int") ∧
    InfiniteRepetition.setSlice 7 ⟨some 0, some 5, none⟩ [1,2,3,4,5] = .ok 5 ∧
    InfiniteRepetition.setSlice 7 ⟨some 5, some 5, none⟩ [9] = .ok 7 :=
  ⟨rfl, rfl, rfl⟩

/-- Counterexample to claim C7: a negative limit does not fail with an
InvalidArgument-class error; `cycle([1,2,3], -1)` simply returns a bounded
cycle view whose stored size is -1. -/
theorem C7_cycle_negative_limit_counterexample :
    cycle [1,2,3] (some (-1)) = CycleView.bounded [1,2,3] (-1) :=
  rfl

/-- Claim C7 as amended: `cycle` returns an unbounded cycle view when the
limit is omitted, and for every integer limit, negative ones included,
returns a bounded cycle view storing that size; no validation of the limit
is performed. -/
theorem C7_cycle_factory_amended (S : List Int) (n : Int) :
    cycle S none = CycleView.unbounded S ∧
    cycle S (some n) = CycleView.bounded S n :=
  ⟨rfl, rfl⟩

/-- Claim C8: `repeat` returns an unbounded repetition view when times is
omitted, a bounded repetition view of length times when times is an integer
greater than 1, and raises TypeError when times is 1, non-positive, or a
non-integer non-None value. -/
theorem C8_repeat_factory (v n : Int) :
    repeat' v TimesArg.none = .ok (.unbounded v) ∧
    (1 < n → repeat' v (.int n) = .ok (.bounded v n)) ∧
    (n ≤ 1 → repeat' v (.int n)
      = .error (.typeError "times must be a positive integer or None")) ∧
    repeat' v TimesArg.other
      = .error (.typeError "times must be a positive integer or None") := by
  refine ⟨rfl, ?_, ?_, rfl⟩
  · intro h
    simp only [repeat', if_pos h]
  · intro h
    simp only [repeat', if_neg (by omega : ¬ 1 < n)]

/-- Witness for C8 at v = 5, n = 3 and n = 1. -/
theorem C8_repeat_factory_witness :
    repeat' 5 (TimesArg.int 3) = .ok (.bounded 5 3) ∧
    repeat' 5 (TimesArg.int 1)
      = .error (.typeError "times must be a positive integer or None") :=
  ⟨(C8_repeat_factory 5 3).2.1 (by decide), (C8_repeat_factory 5 1).2.2.1 (by decide)⟩

/-- Claim C6: integer access on cycle views maps through modulo arithmetic:
for non-empty S, `cycle(S, n)[k] == S[k % len(S)]` for `0 ≤ k < n` and
`cycle(S)[k] == S[k % len(S)]` for `k ≥ 0`, while `cycle(S)[-1]` fails with
an InvalidIndex error. -/
theorem C6_cycle_int_modulo (S : List Int) (n k : Int)
    (hS : S ≠ []) (h0 : 0 ≤ k) (hk : k < n) :
    CycleView.getInt (cycle S (some n)) k
      = .ok (S.getD (k.fmod (S.length : Int)).toNat 0) ∧
    CycleView.getInt (cycle S none) k
      = .ok (S.getD (k.fmod (S.length : Int)).toNat 0) ∧
    CycleView.getInt (cycle S none) (-1)
      = .error (.indexError "Cannot use indices relative to length on InfiniteCycle") := by
  have hlen : 0 < (S.length : Int) := by
    have := List.length_pos.mpr hS
    exact_mod_cast this
  have hm0 : 0 ≤ k.fmod (S.length : Int) := Int.fmod_nonneg' k hlen
  have hm1 : k.fmod (S.length : Int) < (S.length : Int) := Int.fmod_lt_of_pos k hlen
  refine ⟨?_, ?_, ?_⟩
  · show Cycle.getInt S n k = _
    simp only [Cycle.getInt]
    rw [if_neg (by omega), if_neg (by omega : ¬ k < 0), if_neg (by omega)]
    exact pyGet_ok S _ hm0 hm1
  · show InfiniteCycle.getInt S k = _
    simp only [InfiniteCycle.getInt]
    rw [if_neg (by omega : ¬ k < 0), if_neg (by omega)]
    exact pyGet_ok S _ hm0 hm1
  · show InfiniteCycle.getInt S (-1) = _
    simp only [InfiniteCycle.getInt]
    rw [if_pos (by omega : (-1 : Int) < 0)]

/-- Witness for C6 at S = [1,2,3], n = 7, k = 5 (a bound larger than the base
length). -/
theorem C6_cycle_int_modulo_witness :
    CycleView.getInt (cycle [1,2,3] (some 7)) 5
      = .ok (([1,2,3] : List Int).getD
          ((5 : Int).fmod ((([1,2,3] : List Int).length : Int))).toNat 0) ∧
    CycleView.getInt (cycle [1,2,3] none) 5
      = .ok (([1,2,3] : List Int).getD
          ((5 : Int).fmod ((([1,2,3] : List Int).length : Int))).toNat 0) ∧
    CycleView.getInt (cycle [1,2,3] none) (-1)
      = .error (.indexError "Cannot use indices relative to length on InfiniteCycle") :=
  C6_cycle_int_modulo [1,2,3] 7 5 (by decide) (by decide) (by decide)

/-- Step-one slice of a bounded cycle of size c + r from position r: yields
the c cyclic elements starting at offset r. -/
theorem Cycle.getSlice_stepOne (S : List Int) (r c : Int)
    (hlen : 0 < (S.length : Int))
    (hr0 : 0 ≤ r) (hc : 0 ≤ c) :
    Cycle.getSlice S (c + r) ⟨some r, some (c + r), none⟩
      = .ok ((List.range c.toNat).map
          (fun (i : Nat) => S.getD ((r + (i : Int)).fmod (S.length : Int)).toNat 0)) := by
  have hL : (((c + r).toNat : Nat) : Int) = c + r := Int.toNat_of_nonneg (by omega)
  simp only [Cycle.getSlice, sliceIndices, Option.getD_none, Option.getD_some]
  rw [if_neg (by omega : ¬ (1 : Int) = 0), if_pos (by omega : (0 : Int) < 1),
    if_neg (by omega : ¬ r < 0), if_neg (by omega : ¬ c + r < 0)]
  rw [min_eq_left (by omega : r ≤ (((c + r).toNat : Nat) : Int)),
    min_eq_left (by omega : c + r ≤ (((c + r).toNat : Nat) : Int))]
  rcases eq_or_lt_of_le hc with hc0 | hcpos
  · rw [if_pos (by omega : c + r ≤ r)]
    rw [show (0 : Int).toNat = 0 from rfl, show c.toNat = 0 from by omega]
    rfl
  · rw [if_neg (by omega : ¬ c + r ≤ r)]
    rw [show c + r - r + 1 - 1 = c from by ring, Int.fdiv_one]
    have hbody : ∀ x ∈ (List.range c.toNat).map (fun (i : Nat) => r + (i : Int) * 1),
        Cycle.getInt S (c + r) x
          = .ok (S.getD ((x.fmod (S.length : Int)).toNat) 0) := by
      intro x hx
      obtain ⟨i, hi, rfl⟩ := List.mem_map.mp hx
      have hic : (i : Int) < c := by
        have := List.mem_range.mp hi
        omega
      have hx0 : 0 ≤ r + (i : Int) * 1 := by omega
      have hx1 : r + (i : Int) * 1 < c + r := by omega
      simp only [Cycle.getInt]
      rw [if_neg (by omega), if_neg (by omega : ¬ r + (i : Int) * 1 < 0),
        if_neg (by omega)]
      exact pyGet_ok S _ (Int.fmod_nonneg' _ hlen) (Int.fmod_lt_of_pos _ hlen)
    show mapExcept (Cycle.getInt S (c + r))
        ((List.range c.toNat).map (fun (i : Nat) => r + (i : Int) * 1)) = _
    rw [mapExcept_ok_of hbody, List.map_map]
    congr 1
    apply List.map_congr_left
    intro i _
    simp [Function.comp]

/-- Claim C5: for every non-empty base S and bounds 0 ≤ a ≤ b, the
unbounded-cycle slice `cycle(S)[a:b]` equals the ordered sequence
`[S[(a+i) % len(S)] for i in range(b-a)]`, produced by shifting both bounds
by `offset = a - a % len(S)` and slicing a bounded cycle of the shifted
stop. -/
theorem C5_infinite_cycle_slice (S : List Int) (a b : Int)
    (hS : S ≠ []) (ha : 0 ≤ a) (hab : a ≤ b) :
    InfiniteCycle.getSlice S ⟨some a, some b, none⟩
      = .ok ((List.range (b - a).toNat).map
          (fun (i : Nat) => S.getD ((a + (i : Int)).fmod (S.length : Int)).toNat 0)) := by
  have hlen : 0 < (S.length : Int) := by
    have := List.length_pos.mpr hS
    exact_mod_cast this
  have hr0 : 0 ≤ a.fmod (S.length : Int) := Int.fmod_nonneg' a hlen
  have hr1 : a.fmod (S.length : Int) < (S.length : Int) := Int.fmod_lt_of_pos a hlen
  simp only [InfiniteCycle.getSlice, Option.getD_some]
  rw [if_neg (by omega : ¬ a < 0), if_neg (by omega : ¬ b < 0),
    if_neg (by omega : ¬ (S.length : Int) = 0)]
  rw [show a - (a - a.fmod (S.length : Int)) = a.fmod (S.length : Int) from by ring,
    show b - (a - a.fmod (S.length : Int)) = (b - a) + a.fmod (S.length : Int) from by ring]
  rw [Cycle.getSlice_stepOne S (a.fmod (S.length : Int)) (b - a) hlen hr0 (by omega)]
  congr 1
  apply List.map_congr_left
  intro i _
  have : (a.fmod (S.length : Int) + (i : Int)).fmod (S.length : Int)
      = (a + (i : Int)).fmod (S.length : Int) := by
    rw [Int.fmod_eq_emod _ (le_of_lt hlen), Int.fmod_eq_emod _ (le_of_lt hlen),
      Int.fmod_eq_emod _ (le_of_lt hlen)]
    exact Int.emod_add_emod a (S.length : Int) (i : Int)
  rw [this]

/-- Witness for C5 at S = [1,2,3], a = 4, b = 9. -/
theorem C5_infinite_cycle_slice_witness :
    InfiniteCycle.getSlice [1,2,3] ⟨some 4, some 9, none⟩
      = .ok ((List.range ((9 : Int) - 4).toNat).map
          (fun (i : Nat) => ([1,2,3] : List Int).getD
            (((4 : Int) + (i : Int)).fmod ((([1,2,3] : List Int).length : Int))).toNat 0)) :=
  C5_infinite_cycle_slice [1,2,3] 4 9 (by decide) (by decide) (by decide)

/-- Every element selected by a successful Python list slice is an element of
the sliced list. -/
theorem pyGetSlice_ok_mem {I idxs : List Int} {s : PySlice}
    (h : pyGetSlice I s = .ok idxs) : ∀ x ∈ idxs, x ∈ I := by
  simp only [pyGetSlice] at h
  cases hsi : sliceIndices s I.length with
  | error e => rw [hsi] at h; exact absurd h (by simp)
  | ok pos =>
    rw [hsi] at h
    intro x hx
    obtain ⟨i, _, hfi⟩ := mapExcept_mem h x hx
    exact pyGet_mem hfi

/-- Claim C9: IndexedView slice assignment is all-or-nothing: for a view with
in-range indexes, a failed slice or a shape mismatch produces an error with
the base completely unchanged, and on a shape match every paired write goes
through to the base with no exception. -/
theorem C9_setslice_all_or_nothing (S I : List Int) (s : PySlice) (value : List Int)
    (hI : ∀ i ∈ I, 0 ≤ i ∧ i < (S.length : Int)) :
    (∀ e, pyGetSlice I s = .error e →
      Reindexing.setSlice S I s value = (S, some e)) ∧
    (∀ idxs, pyGetSlice I s = .ok idxs →
      (idxs.length ≠ value.length →
        Reindexing.setSlice S I s value
          = (S, some (.valueError "Reindexing only support one-to-one assignment"))) ∧
      (idxs.length = value.length →
        Reindexing.setSlice S I s value
          = ((idxs.zip value).foldl (fun acc q => acc.set q.1.toNat q.2) S, none))) := by
  constructor
  · intro e he
    simp only [Reindexing.setSlice, he]
  · intro idxs hidxs
    have hvalid : ∀ q ∈ idxs.zip value, 0 ≤ q.1 ∧ q.1 < (S.length : Int) := by
      intro q hq
      obtain ⟨i, v⟩ := q
      have hi : i ∈ idxs := (List.of_mem_zip hq).1
      exact hI i (pyGetSlice_ok_mem hidxs i hi)
    constructor
    · intro hne
      simp only [Reindexing.setSlice, hidxs, if_pos hne]
    · intro heq
      simp only [Reindexing.setSlice, hidxs, if_neg (not_not_intro heq)]
      exact writeLoop_ok _ _ hvalid

/-- Witness for C9 at S = [10,20,30], I = [2,0], the full slice and the
matching value [7,8]; the resolved conclusion is restated literally. -/
theorem C9_setslice_all_or_nothing_witness :
    Reindexing.setSlice [10,20,30] [2,0] ⟨none, none, none⟩ [7,8] = ([8,20,7], none) := by
  have h := (C9_setslice_all_or_nothing [10,20,30] [2,0] ⟨none, none, none⟩ [7,8]
    (by decide)).2 [2,0] rfl
  exact (h.2 rfl).trans rfl

/-- Claim C10: slice-assignment writes are applied to the base in order from
first pair to last, so when the selected index subsequence repeats a base
position the value paired with the last occurrence ends up stored there. -/
theorem C10_setslice_last_write_wins (S I : List Int) (s : PySlice)
    (value idxs : List Int) (p v2 : Int) (j1 j2 : Nat)
    (hI : ∀ i ∈ I, 0 ≤ i ∧ i < (S.length : Int))
    (hslice : pyGetSlice I s = .ok idxs)
    (hlen : idxs.length = value.length)
    (hj12 : j1 < j2)
    (hp1 : idxs[j1]? = some p)
    (hp2 : idxs[j2]? = some p)
    (hv2 : value[j2]? = some v2)
    (hlast : ∀ j, j2 < j → idxs[j]? ≠ some p) :
    (Reindexing.setSlice S I s value).1[p.toNat]? = some v2 ∧
    (Reindexing.setSlice S I s value).2 = none := by
  have hvalid : ∀ q ∈ idxs.zip value, 0 ≤ q.1 ∧ q.1 < (S.length : Int) := by
    intro q hq
    obtain ⟨i, v⟩ := q
    have hi : i ∈ idxs := (List.of_mem_zip hq).1
    exact hI i (pyGetSlice_ok_mem hslice i hi)
  have hres : Reindexing.setSlice S I s value
      = ((idxs.zip value).foldl (fun acc q => acc.set q.1.toNat q.2) S, none) := by
    simp only [Reindexing.setSlice, hslice, if_neg (not_not_intro hlen)]
    exact writeLoop_ok _ _ hvalid
  have hpmem : p ∈ idxs := List.mem_iff_getElem?.mpr ⟨j2, hp2⟩
  obtain ⟨hp0, hpS⟩ := hI p (pyGetSlice_ok_mem hslice p hpmem)
  have hpair : (idxs.zip value)[j2]? = some (p, v2) :=
    List.getElem?_zip_eq_some.mpr ⟨hp2, hv2⟩
  have hfold : ((idxs.zip value).foldl (fun acc q => acc.set q.1.toNat q.2) S)[p.toNat]?
      = some v2 := by
    apply foldl_set_last (idxs.zip value) S j2 p v2
    · intro q hq
      exact (hvalid q hq).1
    · exact hpair
    · intro j' q hjj hq
      obtain ⟨hq1, _⟩ := List.getElem?_zip_eq_some.mp hq
      intro hqp
      exact hlast j' hjj (hqp ▸ hq1)
    · omega
  rw [hres]
  exact ⟨hfold, rfl⟩

/-- Witness for C10 at S = [10,20,30], I = [1,1], the full slice, value
[5,6]: position 1 of the base ends as 6, the value of the later pair. -/
theorem C10_setslice_last_write_wins_witness :
    (Reindexing.setSlice [10,20,30] [1,1] ⟨none, none, none⟩ [5,6]).1[(1 : Int).toNat]?
      = some 6 ∧
    (Reindexing.setSlice [10,20,30] [1,1] ⟨none, none, none⟩ [5,6]).2 = none := by
  apply C10_setslice_last_write_wins [10,20,30] [1,1] ⟨none, none, none⟩ [5,6] [1,1] 1 6 0 1
    (by decide) rfl rfl (by decide) rfl rfl rfl
  intro j hj h
  rw [List.getElem?_eq_none (by simp; omega)] at h
  exact Option.noConfusion h
